import Mathlib

/-
Verification of the AEMET acquisition pipeline of datania/hub.

The development embeds, as executable Lean definitions, the core of
`src/datania/aemet.py` and `src/datania/aemet/daily_weather.py`:

* the batch planner loop of `download_aemet_historical_daily_batch` /
  `download_historical_daily` (calendar dates become `Int` day numbers,
  `timedelta(days=1)` becomes `+ 1`);
* the reassembler `_save_batch_data_as_daily_files` / `save_daily_files`
  (JSON records become association lists of string fields, the raw-file
  directory becomes an association list keyed by file name);
* the retrying fetchers `_make_api_request_with_retry` (aemet.py) and the
  retry loop of `download_batch` (daily_weather.py), with the HTTP
  responses of the successive attempts supplied by an explicit sequence;
* the payload decoding step (`content.decode("latin-1")`), with byte
  strings as lists of byte values;
* the coordinate conversion `convert_to_decimal`, with Python strings as
  lists of characters and float arithmetic read as exact rationals.
-/

/-! ## Records and the checkpoint store -/

/-- A raw API record: a JSON object, modelled as an association list of
string fields (`record["fecha"]` is the value of the `"fecha"` key). -/
abbrev Rec := List (String × String)

/-- `"fecha" in record` / `record["fecha"]` — the record's date key,
if present.  JSON objects have at most one entry per key, so the first
match is the value. -/
def getFecha (r : Rec) : Option String :=
  (r.find? (fun p => p.1 == "fecha")).map Prod.snd

/-- The raw-data directory: one entry per file, keyed by the file's day
string (the `{date_key}.json` stem), holding the record list written
there.  Files are only ever created, never rewritten, so an append-only
association list is a faithful model. -/
abbrev Store := List (String × List Rec)

/-- `(output_dir / f"{key}.json").exists()`. -/
def Store.hasKey (st : Store) (k : String) : Bool :=
  st.any (fun e => e.1 == k)

/-- Creating the file `{key}.json` with the given records. -/
def Store.write (st : Store) (k : String) (rs : List Rec) : Store :=
  st ++ [(k, rs)]

/-- The content of the file `{key}.json`, if it exists. -/
def Store.lookup : Store → String → Option (List Rec)
  | [], _ => none
  | e :: rest, k => if e.1 == k then some e.2 else Store.lookup rest k

/-! ## The batch reassembler

`_save_batch_data_as_daily_files` (aemet.py:151-177) and
`save_daily_files` (daily_weather.py:64-84): group the batch records by
their `"fecha"` value (records lacking the key are dropped; Python dicts
keep insertion order, and each record is appended to its day's list),
then write one file per grouped day whose file does not already exist. -/

/-- `daily_data.setdefault(date_key, []).append(record)`: append `r` to
the group of key `k`, creating the group at the end if it is new. -/
def insertRecord (acc : List (String × List Rec)) (k : String) (r : Rec) :
    List (String × List Rec) :=
  match acc with
  | [] => [(k, [r])]
  | (k', rs) :: rest =>
      if k' == k then (k', rs ++ [r]) :: rest
      else (k', rs) :: insertRecord rest k r

/-- The grouping loop of both save functions: fold the batch, dropping
records without a `"fecha"` key. -/
def groupByFecha (batch : List Rec) : List (String × List Rec) :=
  batch.foldl
    (fun acc r =>
      match getFecha r with
      | none => acc
      | some k => insertRecord acc k r)
    []

/-- The group stored for key `k`, if any. -/
def findGroup : List (String × List Rec) → String → Option (List Rec)
  | [], _ => none
  | e :: rest, k => if e.1 == k then some e.2 else findGroup rest k

/-- One iteration of the save loop: skip the day if its file exists,
otherwise write it and count it as saved. -/
def saveStep (acc : Store × Nat) (kv : String × List Rec) : Store × Nat :=
  if Store.hasKey acc.1 kv.1 then acc
  else (Store.write acc.1 kv.1 kv.2, acc.2 + 1)

/-- `save_daily_files(batch_data, output_dir)`: returns the updated
directory and the number of day files written (`saved` in
daily_weather.py, `day_count` in aemet.py).  An empty or `None` batch
groups to nothing, matching the `if not batch_data: return 0` guard. -/
def save_daily_files (batch : List Rec) (st : Store) : Store × Nat :=
  (groupByFecha batch).foldl saveStep (st, 0)

/-! ## The batch planner

`download_aemet_historical_daily_batch` (aemet.py:195-246) and
`download_historical_daily` (daily_weather.py:102-146).  Calendar dates
are day numbers (`Int`); `batch_size = 15`.  The loop is

    while current_date < end_date:
        batch_end = min(current_date + 14, end_date - 1)
        ... one window (current_date, batch_end) ...
        current_date = batch_end + 1

Each iteration consumes at least one day of `end_date - current_date`,
so a fuel of `(end_date - start_date).toNat` steps is exactly enough;
`planWindowsFuel` makes the loop structurally recursive on that fuel. -/

def planWindowsFuel : Nat → Int → Int → List (Int × Int)
  | 0, _, _ => []
  | fuel + 1, cur, e =>
      if cur < e then
        (cur, min (cur + 14) (e - 1)) ::
          planWindowsFuel fuel (min (cur + 14) (e - 1) + 1) e
      else []

/-- The window sequence the loop iterates over, for global range
`[s, e)` (the loop runs while `current_date < end_date` and caps every
window at `end_date - 1`). -/
def planWindows (s e : Int) : List (Int × Int) :=
  planWindowsFuel (e - s).toNat s e

/-- `current_date = batch_end + timedelta(days=1)`: the date the loop
moves to after the window starting at `cur`. -/
def nextCurrent (cur e : Int) : Int :=
  min (cur + 14) (e - 1) + 1

/-- The days `check_date` ranges over: `a, a+1, ..., b` (empty when
`b < a`, since the scan runs `while check_date <= batch_end`). -/
def windowDays (a b : Int) : List Int :=
  (List.range (b + 1 - a).toNat).map (fun (i : Nat) => a + (i : Int))

/-- How many of the planned windows contain day `d`. -/
def coverCount (ws : List (Int × Int)) (d : Int) : Nat :=
  ws.countP (fun w => decide (w.1 ≤ d ∧ d ≤ w.2))

/-! ## The acquisition loop over the store -/

/-- The outcome of `_download_batch_data` / `download_batch` for one
window: records, an explicit no-data answer (`"datos"` absent from the
metadata), or an exception (caught by the loop's `except` clause). -/
inductive FetchOutcome
  | noData
  | data (batch : List Rec)
  | error
deriving DecidableEq

/-- `check_date.strftime('%Y-%m-%d')`: the file-name key of a day.
Rendering the day number is injective, like the ISO date format. -/
def dayKey (d : Int) : String := toString d

/-- The skip check of both loops: every day of the window already has a
file.  (aemet.py collects `missing_days` and tests emptiness;
daily_weather.py breaks at the first missing day — same condition.) -/
def allDaysExist (st : Store) (a b : Int) : Bool :=
  (windowDays a b).all (fun d => st.hasKey (dayKey d))

/-- The loop state: the raw-data directory plus how many windows were
actually fetched from the network (windows on which any HTTP request
was issued, i.e. the non-skipped windows). -/
structure LoopState where
  store : Store
  fetches : Nat
deriving DecidableEq

/-- One window of the acquisition loop: skip if every day exists;
otherwise fetch (the oracle gives the upstream's answer for the window)
and save the batch; `None` data and exceptions save nothing. -/
def stepWindow (oracle : Int → Int → FetchOutcome) (st : LoopState)
    (w : Int × Int) : LoopState :=
  if allDaysExist st.store w.1 w.2 then st
  else
    match oracle w.1 w.2 with
    | .noData => { st with fetches := st.fetches + 1 }
    | .error => { st with fetches := st.fetches + 1 }
    | .data batch =>
        { store := (save_daily_files batch st.store).1,
          fetches := st.fetches + 1 }

/-- One full pass of the acquisition loop over global range `[s, e)`,
starting from directory `st0`.  The loop advances `current_date` the
same way whether a window is skipped, fetched, or fails, so the windows
processed are exactly `planWindows s e`. -/
def runAcq (oracle : Int → Int → FetchOutcome) (s e : Int) (st0 : Store) :
    LoopState :=
  (planWindows s e).foldl (stepWindow oracle) ⟨st0, 0⟩

/-- Windows of the list whose skip check fails against store `T` (the
windows a pass over `T` would fetch). -/
def countMissing (ws : List (Int × Int)) (T : Store) : Nat :=
  ws.countP (fun w => !allDaysExist T w.1 w.2)

/-- All day files a data outcome would group to are already present in
`st` (vacuous for no-data and error outcomes). -/
def groupedKeysIn (oc : FetchOutcome) (st : Store) : Prop :=
  match oc with
  | .data batch => ∀ kv ∈ groupByFecha batch, st.hasKey kv.1 = true
  | _ => True

/-! ## The retrying fetchers

HTTP responses of the successive attempts are supplied as a sequence
`responses : Nat → Resp`.  A body only ever matters through its JSON
shape, so it is modelled as that shape. -/

/-- The JSON shape of a response body: an object with a `"datos"` URL,
an object without one (e.g. an `"estado"` error body), or text that is
not valid JSON (`response.json()` raises). -/
inductive Body
  | withDatos (url : String)
  | noDatos
  | invalid
deriving DecidableEq

/-- One attempt's observation: an HTTP response with its status code and
body, or a transport-level failure of `client.get` itself. -/
inductive Resp
  | http (status : Nat) (body : Body)
  | transport
deriving DecidableEq

/-- The statuses the fetchers treat as retryable (429 and 500). -/
def isRetryable : Resp → Bool
  | .http s _ => s == 429 || s == 500
  | .transport => false

/-- The result of `_make_api_request_with_retry` (aemet.py:17-69):
the returned response, an immediately re-raised `HTTPStatusError`, the
re-raised transport error of the final attempt, or the generic
`Exception(f"Failed to make API request after {max_retries} attempts")`
raised after the loop — whose message carries only the attempt count. -/
inductive ReqResult
  | success (status : Nat) (body : Body)
  | httpStatusError (status : Nat)
  | transportError
  | exhausted (attempts : Nat)
deriving DecidableEq

/-- The retry loop of `_make_api_request_with_retry`, with `remaining`
attempts left out of `maxRetries` (so the current attempt index is
`attempt`, and `attempt == max_retries - 1` is `remaining = 1`).
Returns the result together with the number of HTTP requests issued.
Statuses 429/500 sleep and continue; `raise_for_status` raises for any
non-2xx status, and the `except httpx.HTTPStatusError` clause re-raises
it at once when it is not 429/500; a transport failure retries unless
the attempt budget is spent. -/
def retryAux (responses : Nat → Resp) (maxRetries : Nat) :
    Nat → Nat → ReqResult × Nat
  | _, 0 => (.exhausted maxRetries, 0)
  | attempt, remaining + 1 =>
      match responses attempt with
      | .http s b =>
          if s = 429 ∨ s = 500 then
            let p := retryAux responses maxRetries (attempt + 1) remaining
            (p.1, p.2 + 1)
          else if 200 ≤ s ∧ s ≤ 299 then (.success s b, 1)
          else (.httpStatusError s, 1)
      | .transport =>
          if remaining = 0 then (.transportError, 1)
          else
            let p := retryAux responses maxRetries (attempt + 1) remaining
            (p.1, p.2 + 1)

/-- `_make_api_request_with_retry(client, url, params, max_retries)`,
given the responses the successive attempts would observe. -/
def requestWithRetry (responses : Nat → Resp) (maxRetries : Nat) :
    ReqResult × Nat :=
  retryAux responses maxRetries 0 maxRetries

/-- What `download_batch` (daily_weather.py:15-61) does with the
metadata request: return `None` (no `"datos"` key), proceed to fetch
the `"datos"` URL, raise, or hit the `response is None` guard. -/
inductive DWOutcome
  | noData
  | fetchedDatos (url : String)
  | httpStatusError (status : Nat)
  | transportError
  | parseError
  | failedNone
deriving DecidableEq

/-- The code after `download_batch`'s retry loop: `if response is None:
raise`; then `response.json()` is read — whatever response the loop
left bound, including a final 429/500 one. -/
def dwFinish : Option (Nat × Body) → DWOutcome
  | none => .failedNone
  | some (_, .invalid) => .parseError
  | some (_, .noDatos) => .noData
  | some (_, .withDatos url) => .fetchedDatos url

/-- The retry loop of `download_batch` (5 attempts): a 429/500 response
is bound to `response` and retried; a 2xx breaks; any other status makes
`raise_for_status` raise, which the bare `except Exception` catches —
re-raised only on the last attempt (`attempt == 4`, i.e. `remaining =
1`), otherwise retried with `response` still bound to that response.  A
transport failure leaves `response` at its previous value.  Falling out
of the loop reaches `dwFinish` with the last bound response. -/
def dwLoop (responses : Nat → Resp) :
    Nat → Nat → Option (Nat × Body) → DWOutcome
  | _, 0, cur => dwFinish cur
  | attempt, remaining + 1, cur =>
      match responses attempt with
      | .http s b =>
          if s = 429 ∨ s = 500 then
            dwLoop responses (attempt + 1) remaining (some (s, b))
          else if 200 ≤ s ∧ s ≤ 299 then dwFinish (some (s, b))
          else if remaining = 0 then .httpStatusError s
          else dwLoop responses (attempt + 1) remaining (some (s, b))
      | .transport =>
          if remaining = 0 then .transportError
          else dwLoop responses (attempt + 1) remaining cur

/-- The metadata stage of `download_batch`, given the responses of the
successive attempts (`response = None` initially, budget of 5). -/
def download_batch_dw (responses : Nat → Resp) : DWOutcome :=
  dwLoop responses 0 5 none

/-! ## Payload decoding

Both second-stage reads are a single
`content = data_response.content.decode("latin-1")`
(aemet.py:147, daily_weather.py:60) followed by `json.loads(content)`:
exactly one character encoding is ever attempted. -/

/-- The encodings the payload decode attempts, in order: the one
`decode("latin-1")` call and nothing else. -/
def attemptedEncodings : List String := ["latin-1"]

/-- `bytes.decode("latin-1")`: each byte value becomes the code point
of the same value; defined (it cannot raise) on every byte string. -/
def decodeLatin1 (bs : List Nat) : Option (List Nat) :=
  if bs.all (fun b => b < 256) then some bs else none

/-- A sample upstream for witnesses: every window answers with one
record dated day `0`. -/
def oracleFull : Int → Int → FetchOutcome :=
  fun _ _ => .data [[("fecha", "0")]]

/-! ## Coordinate conversion

`convert_to_decimal` appears three times (aemet.py:95-104 for stations,
aemet.py:291-300 and daily_weather.py:185-194 for compaction) with the
same body; the guards `coord is None or len(coord) < 7` and
`not coord or len(coord) < 7` return `None` on exactly the same inputs
(the empty string has length 0 < 7).  Python strings become lists of
characters, and the float arithmetic is read as exact rationals. -/

/-- `int(text)` on a slice of the coordinate body: the digits' value,
or a raised `ValueError` (`none`) when the slice is empty or contains a
non-digit.  (Real `int()` also accepts signs and surrounding spaces;
coordinate bodies only ever hold digits.) -/
def digitsToNat (cs : List Char) : Option Nat :=
  if cs.isEmpty then none
  else if cs.all (fun c => c.isDigit) then
    some (cs.foldl (fun n c => n * 10 + (c.toNat - 48)) 0)
  else none

/-- What a call of `convert_to_decimal` does: return `None` (the
missing-value marker), return a decimal value, or raise. -/
inductive ConvResult
  | missing
  | val (q : ℚ)
  | raises
deriving DecidableEq

/-- `convert_to_decimal(coord)`: `None` or too-short input gives
`None`; otherwise `degrees = int(coord[:-1][:2])`,
`minutes = int(coord[:-1][2:4])`, `seconds = int(coord[:-1][4:])`,
`decimal = degrees + minutes / 60 + seconds / 3600`, negated when the
last character is `'S'` or `'W'`. -/
def convert_to_decimal (coord : Option (List Char)) : ConvResult :=
  match coord with
  | none => .missing
  | some cs =>
      if cs.length < 7 then .missing
      else
        let body := cs.dropLast
        match digitsToNat (body.take 2),
            digitsToNat ((body.drop 2).take 2),
            digitsToNat (body.drop 4) with
        | some d, some m, some s =>
            let q : ℚ := (d : ℚ) + (m : ℚ) / 60 + (s : ℚ) / 3600
            match cs.getLast? with
            | some c => if c = 'S' ∨ c = 'W' then .val (-q) else .val q
            | none => .raises
        | _, _, _ => .raises

/-! ## Lemmas about the batch planner -/

theorem windowDays_mem (a b d : Int) : d ∈ windowDays a b ↔ a ≤ d ∧ d ≤ b := by
  unfold windowDays
  simp only [List.mem_map, List.mem_range]
  constructor
  · rintro ⟨i, hi, rfl⟩
    omega
  · rintro ⟨h1, h2⟩
    exact ⟨(d - a).toNat, by omega, by omega⟩

theorem planWindowsFuel_mem_bounds :
    ∀ (fuel : Nat) (cur e : Int) (w : Int × Int),
      w ∈ planWindowsFuel fuel cur e →
      cur ≤ w.1 ∧ w.1 ≤ w.2 ∧ w.2 ≤ e - 1 ∧ w.2 - w.1 ≤ 14 := by
  intro fuel
  induction fuel with
  | zero =>
      intro cur e w h
      simp [planWindowsFuel] at h
  | succ f ih =>
      intro cur e w h
      simp only [planWindowsFuel] at h
      by_cases hc : cur < e
      · rw [if_pos hc] at h
        rcases List.mem_cons.mp h with h | h
        · subst h
          constructor
          · omega
          · constructor
            · simp only []
              omega
            · constructor
              · simp only []
                omega
              · simp only []
                omega
        · have := ih _ _ _ h
          omega
      · rw [if_neg hc] at h
        simp at h

theorem planWindowsFuel_coverCount :
    ∀ (fuel : Nat) (cur e d : Int), (e - cur).toNat ≤ fuel →
      coverCount (planWindowsFuel fuel cur e) d =
        if cur ≤ d ∧ d < e then 1 else 0 := by
  intro fuel
  induction fuel with
  | zero =>
      intro cur e d h
      simp only [planWindowsFuel, coverCount, List.countP_nil]
      rw [if_neg (by omega)]
  | succ f ih =>
      intro cur e d h
      by_cases hc : cur < e
      · simp only [planWindowsFuel, if_pos hc, coverCount, List.countP_cons]
        have hrest : coverCount (planWindowsFuel f (min (cur + 14) (e - 1) + 1) e) d =
            if min (cur + 14) (e - 1) + 1 ≤ d ∧ d < e then 1 else 0 :=
          ih (min (cur + 14) (e - 1) + 1) e d (by omega)
        simp only [coverCount] at hrest
        rw [hrest]
        simp only [decide_eq_true_eq]
        split_ifs <;> omega
      · simp only [planWindowsFuel, if_neg hc, coverCount, List.countP_nil]
        rw [if_neg (by omega)]

theorem planWindowsFuel_fuel_indep :
    ∀ (f1 f2 : Nat) (cur e : Int), (e - cur).toNat ≤ f1 → (e - cur).toNat ≤ f2 →
      planWindowsFuel f1 cur e = planWindowsFuel f2 cur e := by
  intro f1
  induction f1 with
  | zero =>
      intro f2 cur e h1 h2
      have hc : ¬ cur < e := by omega
      cases f2 with
      | zero => rfl
      | succ f2' => simp [planWindowsFuel, hc]
  | succ f ih =>
      intro f2 cur e h1 h2
      by_cases hc : cur < e
      · cases f2 with
        | zero => omega
        | succ f2' =>
            simp only [planWindowsFuel, if_pos hc]
            rw [ih f2' (min (cur + 14) (e - 1) + 1) e (by omega) (by omega)]
      · cases f2 with
        | zero => simp [planWindowsFuel, hc]
        | succ f2' => simp [planWindowsFuel, hc]

theorem planWindowsFuel_length :
    ∀ (fuel : Nat) (cur e : Int), (planWindowsFuel fuel cur e).length ≤ fuel := by
  intro fuel
  induction fuel with
  | zero =>
      intro cur e
      simp [planWindowsFuel]
  | succ f ih =>
      intro cur e
      by_cases hc : cur < e
      · simp only [planWindowsFuel, if_pos hc, List.length_cons]
        exact Nat.succ_le_succ (ih _ _)
      · simp [planWindowsFuel, hc]

theorem foldl_stepWindow_fetches_le (oracle : Int → Int → FetchOutcome) :
    ∀ (ws : List (Int × Int)) (st : LoopState),
      (ws.foldl (stepWindow oracle) st).fetches ≤ st.fetches + ws.length := by
  intro ws
  induction ws with
  | nil =>
      intro st
      simp
  | cons w rest ih =>
      intro st
      have hstep : (stepWindow oracle st w).fetches ≤ st.fetches + 1 := by
        unfold stepWindow
        split
        · omega
        · cases oracle w.1 w.2 <;> simp
      calc (List.foldl (stepWindow oracle) (stepWindow oracle st w) rest).fetches
          ≤ (stepWindow oracle st w).fetches + rest.length := ih _
        _ ≤ st.fetches + (w :: rest).length := by
            simp only [List.length_cons]
            omega

/-! ## C1: window coverage of the global range -/

/-- C1 (counterexample): the window sequence does not cover every
calendar day of a `start ≤ end` range — the end day itself is never
covered.  For the range from day 0 to day 1 the loop produces the single
window `(0, 0)`, so day 1, although inside the range, lies in no window
(the loop caps every window at `end_date - 1`). -/
theorem c1_range_end_never_covered :
    (0 : Int) ≤ 1 ∧ planWindows 0 1 = [(0, 0)] ∧
      coverCount (planWindows 0 1) 1 = 0 := by
  refine ⟨by decide, by decide, by decide⟩

/-- C1 (amended): for every global range with `start ≤ end`, the window
sequence of the acquisition loop covers every calendar day `d` with
`start ≤ d < end` exactly once — no gaps, no overlaps — and the end day
itself is excluded (the loop treats the range's end as exclusive,
capping windows at `end − 1`); every produced window `w` satisfies
`start ≤ w.1 ≤ w.2 < end` and spans at most 15 calendar days. -/
theorem c1_windows_cover_halfopen (s e : Int) (h : s ≤ e) :
    (∀ w ∈ planWindows s e,
        s ≤ w.1 ∧ w.1 ≤ w.2 ∧ w.2 - w.1 ≤ 14 ∧ w.2 < e) ∧
    (∀ d : Int, coverCount (planWindows s e) d =
        if s ≤ d ∧ d < e then 1 else 0) := by
  constructor
  · intro w hw
    have hb := planWindowsFuel_mem_bounds _ _ _ _ hw
    omega
  · intro d
    exact planWindowsFuel_coverCount _ _ _ _ (Nat.le_refl _)

/-- Witness for C1: the range from day 0 to day 20. -/
theorem c1_windows_cover_halfopen_witness :
    (0 : Int) ≤ 20 ∧
    ((∀ w ∈ planWindows 0 20,
        (0 : Int) ≤ w.1 ∧ w.1 ≤ w.2 ∧ w.2 - w.1 ≤ 14 ∧ w.2 < 20) ∧
     (∀ d : Int, coverCount (planWindows 0 20) d =
        if 0 ≤ d ∧ d < 20 then 1 else 0)) :=
  ⟨by decide, c1_windows_cover_halfopen 0 20 (by decide)⟩

/-! ## C9: termination of the acquisition loop -/

/-- C9: the acquisition loop terminates.  Every iteration strictly
increases `current_date` (`nextCurrent cur e > cur` whenever the loop
condition `cur < e` holds), the loop performs at most `e − s` iterations
(the window list is no longer than that, and any fuel beyond `e − s`
changes nothing), and — whatever the upstream does, errors included —
the number of fetched windows of a full pass is finite, bounded by
`e − s`. -/
theorem c9_loop_terminates (oracle : Int → Int → FetchOutcome)
    (s e : Int) (st0 : Store) (h : s < e) :
    (∀ cur : Int, cur < e → cur < nextCurrent cur e) ∧
    (planWindows s e).length ≤ (e - s).toNat ∧
    (∀ extra : Nat,
        planWindowsFuel ((e - s).toNat + extra) s e = planWindows s e) ∧
    (runAcq oracle s e st0).fetches ≤ (e - s).toNat := by
  refine ⟨?_, ?_, ?_, ?_⟩
  · intro cur hc
    unfold nextCurrent
    omega
  · exact planWindowsFuel_length _ _ _
  · intro extra
    exact planWindowsFuel_fuel_indep _ _ _ _ (by omega) (Nat.le_refl _)
  · have hle := foldl_stepWindow_fetches_le oracle (planWindows s e) ⟨st0, 0⟩
    have hlen := planWindowsFuel_length ((e - s).toNat) s e
    unfold runAcq
    simp only [Nat.zero_add] at hle
    exact Nat.le_trans hle hlen

/-- Witness for C9: the range from day 0 to day 20, with an upstream
that fails every window. -/
theorem c9_loop_terminates_witness :
    (0 : Int) < 20 ∧
    ((∀ cur : Int, cur < 20 → cur < nextCurrent cur 20) ∧
     (planWindows 0 20).length ≤ ((20 : Int) - 0).toNat ∧
     (∀ extra : Nat,
        planWindowsFuel (((20 : Int) - 0).toNat + extra) 0 20 =
          planWindows 0 20) ∧
     (runAcq (fun _ _ => .error) 0 20 []).fetches ≤ ((20 : Int) - 0).toNat) :=
  ⟨by decide, c9_loop_terminates (fun _ _ => .error) 0 20 [] (by decide)⟩

/-! ## Lemmas about the store and the save loop -/

theorem hasKey_append (st : Store) (entry : String × List Rec) (k : String) :
    (st ++ [entry]).hasKey k = (st.hasKey k || (entry.1 == k)) := by
  simp [Store.hasKey, List.any_append]

theorem saveFold_hasKey_mono :
    ∀ (l : List (String × List Rec)) (acc : Store × Nat) (k : String),
      acc.1.hasKey k = true → ((l.foldl saveStep acc).1).hasKey k = true := by
  intro l
  induction l with
  | nil =>
      intro acc k h
      exact h
  | cons kv rest ih =>
      intro acc k h
      simp only [List.foldl_cons]
      apply ih
      unfold saveStep
      split
      · exact h
      · simp only [Store.write, hasKey_append, h, Bool.true_or]

theorem saveFold_writes :
    ∀ (l : List (String × List Rec)) (acc : Store × Nat) (kv : String × List Rec),
      kv ∈ l → ((l.foldl saveStep acc).1).hasKey kv.1 = true := by
  intro l
  induction l with
  | nil =>
      intro acc kv h
      simp at h
  | cons kv0 rest ih =>
      intro acc kv h
      rcases List.mem_cons.mp h with h | h
      · subst h
        simp only [List.foldl_cons]
        apply saveFold_hasKey_mono
        unfold saveStep
        split
        · assumption
        · simp only [Store.write, hasKey_append, BEq.refl, Bool.or_true]
      · simp only [List.foldl_cons]
        exact ih _ _ h

theorem saveFold_noop :
    ∀ (l : List (String × List Rec)) (T : Store) (n : Nat),
      (∀ kv ∈ l, T.hasKey kv.1 = true) →
      l.foldl saveStep (T, n) = (T, n) := by
  intro l
  induction l with
  | nil =>
      intro T n _
      rfl
  | cons kv rest ih =>
      intro T n h
      simp only [List.foldl_cons]
      have hk : saveStep (T, n) kv = (T, n) := by
        unfold saveStep
        rw [if_pos (h kv (List.mem_cons_self _ _))]
      rw [hk]
      exact ih T n (fun kv' h' => h kv' (List.mem_cons_of_mem _ h'))

theorem save_daily_files_hasKey_mono (batch : List Rec) (st : Store)
    (k : String) (h : st.hasKey k = true) :
    ((save_daily_files batch st).1).hasKey k = true :=
  saveFold_hasKey_mono _ (st, 0) k h

theorem save_daily_files_grouped_keys (batch : List Rec) (st : Store)
    (kv : String × List Rec) (h : kv ∈ groupByFecha batch) :
    ((save_daily_files batch st).1).hasKey kv.1 = true :=
  saveFold_writes _ (st, 0) kv h

theorem save_daily_files_noop (batch : List Rec) (T : Store)
    (h : ∀ kv ∈ groupByFecha batch, T.hasKey kv.1 = true) :
    save_daily_files batch T = (T, 0) :=
  saveFold_noop _ T 0 h

/-! ## Lemmas about the acquisition loop -/

theorem stepWindow_hasKey_mono (oracle : Int → Int → FetchOutcome)
    (st : LoopState) (w : Int × Int) (k : String)
    (h : st.store.hasKey k = true) :
    ((stepWindow oracle st w).store).hasKey k = true := by
  unfold stepWindow
  split
  · exact h
  · cases oracle w.1 w.2 with
    | noData => exact h
    | error => exact h
    | data batch => exact save_daily_files_hasKey_mono batch st.store k h

theorem runFold_hasKey_mono (oracle : Int → Int → FetchOutcome) :
    ∀ (ws : List (Int × Int)) (st : LoopState) (k : String),
      st.store.hasKey k = true →
      ((ws.foldl (stepWindow oracle) st).store).hasKey k = true := by
  intro ws
  induction ws with
  | nil =>
      intro st k h
      exact h
  | cons w rest ih =>
      intro st k h
      simp only [List.foldl_cons]
      exact ih _ _ (stepWindow_hasKey_mono oracle st w k h)

theorem allDaysExist_mono (st st' : Store) (a b : Int)
    (hmono : ∀ k, st.hasKey k = true → st'.hasKey k = true)
    (h : allDaysExist st a b = true) : allDaysExist st' a b = true := by
  simp only [allDaysExist, List.all_eq_true] at h ⊢
  intro d hd
  exact hmono _ (h d hd)

theorem runFold_goodStore (oracle : Int → Int → FetchOutcome) :
    ∀ (ws : List (Int × Int)) (st : LoopState) (w : Int × Int), w ∈ ws →
      allDaysExist ((ws.foldl (stepWindow oracle) st).store) w.1 w.2 = false →
      groupedKeysIn (oracle w.1 w.2) ((ws.foldl (stepWindow oracle) st).store) := by
  intro ws
  induction ws with
  | nil =>
      intro st w h
      simp at h
  | cons w0 rest ih =>
      intro st w hmem hmiss
      simp only [List.foldl_cons] at hmiss ⊢
      rcases List.mem_cons.mp hmem with hw | hw
      · subst hw
        by_cases hA : allDaysExist st.store w.1 w.2 = true
        · exfalso
          have : allDaysExist
              ((rest.foldl (stepWindow oracle) (stepWindow oracle st w)).store)
              w.1 w.2 = true := by
            apply allDaysExist_mono st.store _ _ _ ?_ hA
            intro k hk
            exact runFold_hasKey_mono oracle rest _ k
              (stepWindow_hasKey_mono oracle st w k hk)
          rw [this] at hmiss
          cases hmiss
        · have hA' : allDaysExist st.store w.1 w.2 = false := by
            cases hEq : allDaysExist st.store w.1 w.2
            · rfl
            · exact absurd hEq hA
          unfold groupedKeysIn
          cases hor : oracle w.1 w.2 with
          | noData => trivial
          | error => trivial
          | data batch =>
              intro kv hkv
              apply runFold_hasKey_mono oracle rest (stepWindow oracle st w) kv.1
              have hstep : (stepWindow oracle st w).store =
                  (save_daily_files batch st.store).1 := by
                unfold stepWindow
                rw [if_neg (by rw [hA']; exact Bool.false_ne_true), hor]
              rw [hstep]
              exact save_daily_files_grouped_keys batch st.store kv hkv
      · exact ih _ w hw hmiss

theorem runFold_noop (oracle : Int → Int → FetchOutcome) :
    ∀ (ws : List (Int × Int)) (T : Store) (n : Nat),
      (∀ w ∈ ws, allDaysExist T w.1 w.2 = false →
        groupedKeysIn (oracle w.1 w.2) T) →
      ws.foldl (stepWindow oracle) ⟨T, n⟩ = ⟨T, n + countMissing ws T⟩ := by
  intro ws
  induction ws with
  | nil =>
      intro T n _
      simp [countMissing]
  | cons w rest ih =>
      intro T n hgood
      simp only [List.foldl_cons]
      by_cases hA : allDaysExist T w.1 w.2 = true
      · have hstep : stepWindow oracle ⟨T, n⟩ w = ⟨T, n⟩ := by
          unfold stepWindow
          rw [if_pos hA]
        rw [hstep, ih T n (fun w' h' => hgood w' (List.mem_cons_of_mem _ h'))]
        have hcm : countMissing (w :: rest) T = countMissing rest T := by
          simp [countMissing, List.countP_cons, hA]
        rw [hcm]
      · have hA' : allDaysExist T w.1 w.2 = false := by
          cases hEq : allDaysExist T w.1 w.2
          · rfl
          · exact absurd hEq hA
        have hgoodw := hgood w (List.mem_cons_self _ _) hA'
        have hstep : stepWindow oracle ⟨T, n⟩ w = ⟨T, n + 1⟩ := by
          unfold stepWindow
          rw [if_neg (by rw [hA']; exact Bool.false_ne_true)]
          cases hor : oracle w.1 w.2 with
          | noData => rfl
          | error => rfl
          | data batch =>
              unfold groupedKeysIn at hgoodw
              rw [hor] at hgoodw
              simp only []
              rw [save_daily_files_noop batch T hgoodw]
        rw [hstep, ih T (n + 1) (fun w' h' => hgood w' (List.mem_cons_of_mem _ h'))]
        have hcm : countMissing (w :: rest) T = countMissing rest T + 1 := by
          simp [countMissing, List.countP_cons, hA']
        rw [hcm]
        have : n + 1 + countMissing rest T = n + (countMissing rest T + 1) := by
          omega
        rw [this]

/-! ## C2: behaviour of a second pass of the acquisition loop -/

/-- C2 (counterexample): a second pass is not fetch-free for every
upstream response.  For the one-day range `[0, 1)` with an upstream that
reports no data, the first pass fetches the window and writes nothing,
so the second pass — with the checkpoint directory exactly as the first
run left it — finds day 0 still missing and fetches the same window
again: one fetch, not zero.  Likewise for a partial-day response: over
`[0, 2)` — one window covering days 0 and 1 — an upstream whose records
cover only day 0 leaves day 1 unwritten after the first pass, and the
second pass fetches the window again (one fetch, not zero) while
writing nothing. -/
theorem c2_second_pass_refetches_nodata :
    ((runAcq (fun _ _ => .noData) 0 1 []).fetches = 1 ∧
     (runAcq (fun _ _ => .noData) 0 1
         (runAcq (fun _ _ => .noData) 0 1 []).store).store
       = (runAcq (fun _ _ => .noData) 0 1 []).store ∧
     (runAcq (fun _ _ => .noData) 0 1
         (runAcq (fun _ _ => .noData) 0 1 []).store).fetches = 1) ∧
    ((runAcq oracleFull 0 2 []).fetches = 1 ∧
     (runAcq oracleFull 0 2 []).store = [("0", [[("fecha", "0")]])] ∧
     (runAcq oracleFull 0 2 (runAcq oracleFull 0 2 []).store).store
       = (runAcq oracleFull 0 2 []).store ∧
     (runAcq oracleFull 0 2 (runAcq oracleFull 0 2 []).store).fetches = 1) := by
  refine ⟨⟨by decide, by decide, by decide⟩,
    by decide, by decide, by decide, by decide⟩

/-- C2 (amended): with no upstream changes, a second pass of the
acquisition loop over the same range always produces exactly the same
set of checkpoint artifacts as the first pass (it writes nothing,
whatever the upstream answered); the second pass fetches exactly the
windows that still contain a missing day after the first pass — its
fetch count is the number of such windows — and it therefore issues
zero fetches if and only if the first pass left every calendar day of
the range checkpointed.  In particular, windows for which the API
reported no data, and windows whose response contained records for only
some of the window's days, leave missing days behind and are fetched
again. -/
theorem c2_second_pass_writes_nothing
    (oracle : Int → Int → FetchOutcome) (s e : Int) (st0 : Store) :
    (runAcq oracle s e (runAcq oracle s e st0).store).store
        = (runAcq oracle s e st0).store ∧
    (runAcq oracle s e (runAcq oracle s e st0).store).fetches
        = countMissing (planWindows s e) ((runAcq oracle s e st0).store) ∧
    ((runAcq oracle s e (runAcq oracle s e st0).store).fetches = 0 ↔
      (∀ d : Int, s ≤ d → d < e →
        ((runAcq oracle s e st0).store).hasKey (dayKey d) = true)) := by
  have hgood : ∀ w ∈ planWindows s e,
      allDaysExist ((runAcq oracle s e st0).store) w.1 w.2 = false →
      groupedKeysIn (oracle w.1 w.2) ((runAcq oracle s e st0).store) := by
    intro w hw hm
    exact runFold_goodStore oracle (planWindows s e) ⟨st0, 0⟩ w hw hm
  have hrun2 : runAcq oracle s e (runAcq oracle s e st0).store =
      ⟨(runAcq oracle s e st0).store,
        0 + countMissing (planWindows s e) ((runAcq oracle s e st0).store)⟩ :=
    runFold_noop oracle (planWindows s e) _ 0 hgood
  refine ⟨by rw [hrun2], by rw [hrun2]; simp, ?_⟩
  rw [hrun2]
  simp only [Nat.zero_add]
  constructor
  · intro h0 d h1 h2
    unfold countMissing at h0
    have hall : ∀ w ∈ planWindows s e,
        allDaysExist ((runAcq oracle s e st0).store) w.1 w.2 = true := by
      intro w hw
      have hnp := (List.countP_eq_zero).mp h0 w hw
      by_cases hEq : allDaysExist ((runAcq oracle s e st0).store) w.1 w.2 = true
      · exact hEq
      · exfalso
        apply hnp
        have hfalse : allDaysExist ((runAcq oracle s e st0).store) w.1 w.2
            = false := by
          cases hE2 : allDaysExist ((runAcq oracle s e st0).store) w.1 w.2
          · rfl
          · exact absurd hE2 hEq
        simp [hfalse]
    have hcov : coverCount (planWindows s e) d = 1 := by
      have hfc := planWindowsFuel_coverCount ((e - s).toNat) s e d (Nat.le_refl _)
      rw [if_pos ⟨h1, h2⟩] at hfc
      exact hfc
    have hex : ∃ w ∈ planWindows s e, decide (w.1 ≤ d ∧ d ≤ w.2) = true := by
      by_contra hne
      push_neg at hne
      have hzero : coverCount (planWindows s e) d = 0 := by
        unfold coverCount
        rw [List.countP_eq_zero]
        intro w hw
        exact hne w hw
      omega
    obtain ⟨w, hw, hP⟩ := hex
    have hwd := of_decide_eq_true hP
    have hA := hall w hw
    simp only [allDaysExist, List.all_eq_true] at hA
    exact hA d ((windowDays_mem w.1 w.2 d).mpr ⟨hwd.1, hwd.2⟩)
  · intro hall
    have hnone : ∀ w ∈ planWindows s e,
        allDaysExist ((runAcq oracle s e st0).store) w.1 w.2 = true := by
      intro w hw
      have hb := planWindowsFuel_mem_bounds _ _ _ _ hw
      simp only [allDaysExist, List.all_eq_true]
      intro d hd
      have hdw := (windowDays_mem w.1 w.2 d).mp hd
      exact hall d (by omega) (by omega)
    unfold countMissing
    rw [List.countP_eq_zero]
    intro w hw
    rw [hnone w hw]
    simp

/-- Witness for C2: the one-day range `[0, 1)` with an upstream whose
single window response covers its day, starting from an empty store. -/
theorem c2_second_pass_writes_nothing_witness :
    (runAcq oracleFull 0 1 (runAcq oracleFull 0 1 []).store).store
        = (runAcq oracleFull 0 1 []).store ∧
    (runAcq oracleFull 0 1 (runAcq oracleFull 0 1 []).store).fetches = 0 :=
  ⟨(c2_second_pass_writes_nothing oracleFull 0 1 []).1,
   (c2_second_pass_writes_nothing oracleFull 0 1 []).2.2.mpr (by
     intro d h1 h2
     have hd : d = 0 := by omega
     subst hd
     decide)⟩

/-! ## Lemmas about file contents -/

theorem lookup_append_of_some (st l2 : Store) (k : String) (v : List Rec)
    (h : Store.lookup st k = some v) :
    Store.lookup (st ++ l2) k = some v := by
  induction st with
  | nil => simp [Store.lookup] at h
  | cons entry rest ih =>
      by_cases he : (entry.1 == k) = true
      · simp only [Store.lookup, he, if_true] at h
        simp only [List.cons_append, Store.lookup, he, if_true]
        exact h
      · simp only [Store.lookup, he, if_false] at h
        simp only [List.cons_append, Store.lookup, he, if_false]
        exact ih h

theorem hasKey_false_lookup_none (st : Store) (k : String)
    (h : st.hasKey k = false) : Store.lookup st k = none := by
  induction st with
  | nil => rfl
  | cons entry rest ih =>
      simp only [Store.hasKey, List.any_cons, Bool.or_eq_false_iff] at h
      simp only [Store.lookup, h.1, if_false]
      exact ih h.2

theorem lookup_append_right (st l2 : Store) (k : String)
    (h : st.hasKey k = false) :
    Store.lookup (st ++ l2) k = Store.lookup l2 k := by
  induction st with
  | nil => rfl
  | cons entry rest ih =>
      simp only [Store.hasKey, List.any_cons, Bool.or_eq_false_iff] at h
      simp only [List.cons_append, Store.lookup, h.1, if_false]
      exact ih h.2

theorem saveFold_lookup_mono :
    ∀ (l : List (String × List Rec)) (acc : Store × Nat) (k : String)
      (v : List Rec), Store.lookup acc.1 k = some v →
      Store.lookup ((l.foldl saveStep acc).1) k = some v := by
  intro l
  induction l with
  | nil =>
      intro acc k v h
      exact h
  | cons kv rest ih =>
      intro acc k v h
      simp only [List.foldl_cons]
      apply ih
      unfold saveStep
      split
      · exact h
      · exact lookup_append_of_some _ _ _ _ h

theorem save_daily_files_lookup_mono (batch : List Rec) (st : Store)
    (k : String) (v : List Rec) (h : Store.lookup st k = some v) :
    Store.lookup ((save_daily_files batch st).1) k = some v :=
  saveFold_lookup_mono _ (st, 0) k v h

theorem stepWindow_lookup_mono (oracle : Int → Int → FetchOutcome)
    (st : LoopState) (w : Int × Int) (k : String) (v : List Rec)
    (h : Store.lookup st.store k = some v) :
    Store.lookup ((stepWindow oracle st w).store) k = some v := by
  unfold stepWindow
  split
  · exact h
  · cases oracle w.1 w.2 with
    | noData => exact h
    | error => exact h
    | data batch => exact save_daily_files_lookup_mono batch st.store k v h

theorem runFold_lookup_mono (oracle : Int → Int → FetchOutcome) :
    ∀ (ws : List (Int × Int)) (st : LoopState) (k : String) (v : List Rec),
      Store.lookup st.store k = some v →
      Store.lookup ((ws.foldl (stepWindow oracle) st).store) k = some v := by
  intro ws
  induction ws with
  | nil =>
      intro st k v h
      exact h
  | cons w rest ih =>
      intro st k v h
      simp only [List.foldl_cons]
      exact ih _ _ _ (stepWindow_lookup_mono oracle st w k v h)

/-! ## C6: checkpoint artifacts are never overwritten -/

/-- C6: a day file that already exists is never rewritten by any
operation of the pipeline.  The reassembler's write for an existing day
is rejected (the `if day_file.exists(): continue` guard skips it), so
after any save and after any number of acquisition passes the file's
content is exactly what it was when the file was created. -/
theorem c6_artifacts_never_overwritten :
    (∀ (batch : List Rec) (st : Store) (k : String) (v : List Rec),
        Store.lookup st k = some v →
        Store.lookup ((save_daily_files batch st).1) k = some v) ∧
    (∀ (oracle : Int → Int → FetchOutcome) (s e : Int) (st0 : Store)
        (k : String) (v : List Rec),
        Store.lookup st0 k = some v →
        Store.lookup ((runAcq oracle s e st0).store) k = some v) := by
  constructor
  · intro batch st k v h
    exact save_daily_files_lookup_mono batch st k v h
  · intro oracle s e st0 k v h
    exact runFold_lookup_mono oracle (planWindows s e) ⟨st0, 0⟩ k v h

/-- Witness for C6: saving a batch that re-covers day `2020-01-01`
leaves the existing artifact's content unchanged. -/
theorem c6_artifacts_never_overwritten_witness :
    Store.lookup
      ((save_daily_files [[("fecha", "2020-01-01"), ("v", "new")]]
          [("2020-01-01", [[("v", "old")]])]).1) "2020-01-01"
      = some [[("v", "old")]] :=
  c6_artifacts_never_overwritten.1
    [[("fecha", "2020-01-01"), ("v", "new")]]
    [("2020-01-01", [[("v", "old")]])]
    "2020-01-01" [[("v", "old")]] (by decide)

/-! ## Lemmas about the grouping of a batch -/

theorem findGroup_insertRecord
    (acc : List (String × List Rec)) (k0 k : String) (r : Rec) :
    findGroup (insertRecord acc k0 r) k =
      if (k0 == k) = true then
        match findGroup acc k with
        | some rs => some (rs ++ [r])
        | none => some [r]
      else findGroup acc k := by
  induction acc with
  | nil =>
      by_cases h : (k0 == k) = true <;> simp [insertRecord, findGroup, h]
  | cons entry rest ih =>
      obtain ⟨k', rs⟩ := entry
      by_cases hk' : k' = k0
      · subst hk'
        by_cases hk : k' = k
        · subst hk
          simp [insertRecord, findGroup]
        · have h1 : (k' == k') = true := by simp
          have h2 : (k' == k) = false := by simp [hk]
          simp [insertRecord, findGroup, h1, h2]
      · have h1 : (k' == k0) = false := by simp [hk']
        by_cases hk : k' = k
        · subst hk
          have h2 : (k0 == k') = false := by
            simp only [beq_eq_false_iff_ne]
            intro hc
            exact hk' hc.symm
          simp [insertRecord, findGroup, h1, h2]
        · have h2 : (k' == k) = false := by simp [hk]
          simp only [insertRecord, h1, if_false, findGroup, h2]
          exact ih
  
theorem groupByFecha_append (batch : List Rec) (r : Rec) :
    groupByFecha (batch ++ [r]) =
      match getFecha r with
      | none => groupByFecha batch
      | some k => insertRecord (groupByFecha batch) k r := by
  unfold groupByFecha
  rw [List.foldl_append]
  rfl

theorem findGroup_groupByFecha (batch : List Rec) (k : String) :
    findGroup (groupByFecha batch) k =
      if batch.any (fun r => getFecha r == some k) = true
      then some (batch.filter (fun r => getFecha r == some k))
      else none := by
  induction batch using List.reverseRecOn with
  | nil => simp [groupByFecha, findGroup]
  | append_singleton l r ih =>
      rw [groupByFecha_append]
      cases hget : getFecha r with
      | none =>
          have hp : (getFecha r == some k) = false := by simp [hget]
          rw [ih, List.any_append, List.filter_append]
          simp [hp]
      | some k0 =>
          by_cases hk : k0 = k
          · subst hk
            rw [findGroup_insertRecord, if_pos (by simp), ih]
            have hp : (getFecha r == some k0) = true := by simp [hget]
            rw [List.any_append, List.filter_append]
            by_cases hany : l.any (fun rr => getFecha rr == some k0) = true
            · simp only [hany, if_true, Bool.true_or, hp]
              simp [hp]
            · have hany' : l.any (fun rr => getFecha rr == some k0) = false := by
                cases hEq : l.any (fun rr => getFecha rr == some k0)
                · rfl
                · exact absurd hEq hany
              have hfilter : l.filter (fun rr => getFecha rr == some k0) = [] := by
                rw [List.filter_eq_nil_iff]
                intro a ha
                have := (List.any_eq_false).mp hany' a ha
                simpa using this
              simp only [hany', if_false, Bool.false_or, hp, if_true, hfilter]
              simp [hp, hget]
          · have hp : (getFecha r == some k) = false := by simp [hget, hk]
            rw [findGroup_insertRecord, if_neg (by simp [hk]), ih]
            rw [List.any_append, List.filter_append]
            simp [hp]

theorem saveFold_writes_missing :
    ∀ (l : List (String × List Rec)) (acc : Store × Nat) (k : String)
      (rs : List Rec),
      acc.1.hasKey k = false → findGroup l k = some rs →
      Store.lookup ((l.foldl saveStep acc).1) k = some rs := by
  intro l
  induction l with
  | nil =>
      intro acc k rs _ hfind
      simp [findGroup] at hfind
  | cons kv rest ih =>
      intro acc k rs hmiss hfind
      simp only [List.foldl_cons]
      by_cases hk : (kv.1 == k) = true
      · have hkey : kv.1 = k := by simpa using hk
        simp only [findGroup, hk, if_true, Option.some.injEq] at hfind
        subst hfind
        have hstep : saveStep acc kv = (acc.1 ++ [(kv.1, kv.2)], acc.2 + 1) := by
          unfold saveStep
          rw [if_neg]
          · rfl
          · rw [hkey, hmiss]
            exact Bool.false_ne_true
        rw [hstep]
        apply saveFold_lookup_mono
        rw [lookup_append_right _ _ _ hmiss]
        simp [Store.lookup, hk]
      · have hk' : (kv.1 == k) = false := by
          cases hEq : (kv.1 == k)
          · rfl
          · exact absurd hEq hk
        simp only [findGroup, hk', if_false] at hfind
        unfold saveStep
        split
        · exact ih _ _ _ hmiss hfind
        · apply ih _ _ _ _ hfind
          simp only [Store.write, hasKey_append, hmiss, hk', Bool.or_self]

/-! ## C7: the reassembler groups by date and writes missing days -/

/-- C7: the reassembler groups every record of a batch by its `fecha`
value, drops records lacking the key (the group of key `k` is exactly
the subsequence of records whose `fecha` is `k`, and exists exactly when
some record carries `k`), and writes one artifact — holding its full
group — for every grouped day not already present.  In particular, the
three-record batch over days 2020-01-01 / 2020-01-02 / 2020-01-01
against an empty store writes exactly two artifacts, with two records
and one record. -/
theorem c7_reassembler_groups_and_writes :
    (save_daily_files
        [[("fecha", "2020-01-01"), ("t", "a")],
         [("fecha", "2020-01-02"), ("t", "b")],
         [("fecha", "2020-01-01"), ("t", "c")]] []
      = ([("2020-01-01",
            [[("fecha", "2020-01-01"), ("t", "a")],
             [("fecha", "2020-01-01"), ("t", "c")]]),
          ("2020-01-02", [[("fecha", "2020-01-02"), ("t", "b")]])], 2)) ∧
    (∀ (batch : List Rec) (k : String),
        findGroup (groupByFecha batch) k =
          if batch.any (fun r => getFecha r == some k) = true
          then some (batch.filter (fun r => getFecha r == some k))
          else none) ∧
    (∀ (batch : List Rec) (st : Store) (k : String) (rs : List Rec),
        st.hasKey k = false → findGroup (groupByFecha batch) k = some rs →
        Store.lookup ((save_daily_files batch st).1) k = some rs) := by
  refine ⟨by decide, findGroup_groupByFecha, ?_⟩
  intro batch st k rs hmiss hfind
  exact saveFold_writes_missing _ (st, 0) k rs hmiss hfind

/-- Witness for C7: a fresh day is written with its grouped records. -/
theorem c7_reassembler_groups_and_writes_witness :
    Store.lookup
      ((save_daily_files [[("fecha", "2020-01-03")]] [("other", [])]).1)
      "2020-01-03" = some [[("fecha", "2020-01-03")]] :=
  c7_reassembler_groups_and_writes.2.2
    [[("fecha", "2020-01-03")]] [("other", [])] "2020-01-03"
    [[("fecha", "2020-01-03")]] (by decide) (by decide)

/-! ## Lemmas about the retrying fetchers -/

theorem isRetryable_shape (r : Resp) (h : isRetryable r = true) :
    ∃ s b, r = .http s b ∧ (s = 429 ∨ s = 500) := by
  cases r with
  | transport => simp [isRetryable] at h
  | http s b =>
      refine ⟨s, b, rfl, ?_⟩
      simp only [isRetryable, Bool.or_eq_true, beq_iff_eq] at h
      exact h

theorem retryAux_step_http (responses : Nat → Resp) (m attempt r : Nat)
    (s : Nat) (b : Body) (h : responses attempt = .http s b) :
    retryAux responses m attempt (r + 1) =
      if s = 429 ∨ s = 500 then
        ((retryAux responses m (attempt + 1) r).1,
         (retryAux responses m (attempt + 1) r).2 + 1)
      else if 200 ≤ s ∧ s ≤ 299 then (.success s b, 1)
      else (.httpStatusError s, 1) := by
  simp only [retryAux]
  rw [h]

theorem dwLoop_step_http (responses : Nat → Resp) (attempt r : Nat)
    (cur : Option (Nat × Body)) (s : Nat) (b : Body)
    (h : responses attempt = .http s b) :
    dwLoop responses attempt (r + 1) cur =
      if s = 429 ∨ s = 500 then
        dwLoop responses (attempt + 1) r (some (s, b))
      else if 200 ≤ s ∧ s ≤ 299 then dwFinish (some (s, b))
      else if r = 0 then .httpStatusError s
      else dwLoop responses (attempt + 1) r (some (s, b)) := by
  simp only [dwLoop]
  rw [h]

theorem retryAux_stops (responses : Nat → Resp) (m : Nat) :
    ∀ (k attempt remaining s : Nat) (b : Body),
      k < remaining →
      (∀ i, attempt ≤ i → i < attempt + k → isRetryable (responses i) = true) →
      responses (attempt + k) = .http s b →
      ¬(200 ≤ s ∧ s ≤ 299) → s ≠ 429 → s ≠ 500 →
      retryAux responses m attempt remaining = (.httpStatusError s, k + 1) := by
  intro k
  induction k with
  | zero =>
      intro attempt remaining s b hk _ hresp h2 h429 h500
      obtain ⟨r, rfl⟩ : ∃ r, remaining = r + 1 := ⟨remaining - 1, by omega⟩
      rw [Nat.add_zero] at hresp
      rw [retryAux_step_http responses m attempt r s b hresp]
      rw [if_neg (by omega), if_neg h2]
  | succ kk ih =>
      intro attempt remaining s b hk hpre hresp h2 h429 h500
      obtain ⟨r, rfl⟩ : ∃ r, remaining = r + 1 := ⟨remaining - 1, by omega⟩
      have hr := hpre attempt (Nat.le_refl _) (by omega)
      obtain ⟨s', b', hsb, hs'⟩ := isRetryable_shape _ hr
      rw [retryAux_step_http responses m attempt r s' b' hsb, if_pos hs']
      have hresp' : responses (attempt + 1 + kk) = .http s b := by
        have : attempt + 1 + kk = attempt + (kk + 1) := by omega
        rw [this]
        exact hresp
      rw [ih (attempt + 1) r s b (by omega)
        (fun i h1 hi2 => hpre i (by omega) (by omega)) hresp' h2 h429 h500]

/-! ## C3: retry exhaustion on all-retryable responses -/

/-- C3: when every attempt observes a retryable status, the two fetchers
diverge.  `download_batch` (daily_weather.py) falls out of its retry
loop with `response` still bound to the final 429 response — the
`response is None` guard cannot fire — and proceeds to parse that 429
body as the metadata: a body without `"datos"` is returned as the
no-data success outcome, and a body with `"datos"` even sends the code
on to fetch the URL found in the 429 response.
`_make_api_request_with_retry` (aemet.py) does fail after its 8
attempts, but with the generic exception carrying only the attempt
count — the same error value whatever the last observed failure was. -/
theorem c3_final_429_body_interpreted :
    download_batch_dw (fun _ => .http 429 .noDatos) = .noData ∧
    download_batch_dw (fun _ => .http 429 (.withDatos "u")) = .fetchedDatos "u" ∧
    requestWithRetry (fun _ => .http 429 .noDatos) 8 = (.exhausted 8, 8) ∧
    requestWithRetry (fun _ => .http 500 .invalid) 8 = (.exhausted 8, 8) := by
  refine ⟨by decide, by decide, by decide, by decide⟩

/-! ## C5: non-retryable non-2xx statuses -/

/-- C5 (counterexample): in `download_batch` (daily_weather.py) a 404
does not fail immediately: `raise_for_status`'s error is swallowed by
the bare `except Exception` clause and the request is retried — here the
404 of attempt 0 is followed by a successful attempt 1, so the fetch
proceeds instead of failing. -/
theorem c5_dw_retries_404 :
    download_batch_dw
      (fun i => if i = 0 then .http 404 .invalid else .http 200 (.withDatos "u"))
      = .fetchedDatos "u" := by
  decide

/-- C5 (amended): in `_make_api_request_with_retry` (aemet.py) a
response whose status is non-2xx and neither 429 nor 500 makes the fetch
fail immediately as an HTTP status error, with no further request issued
(after `k` retryable attempts and such a status, exactly `k + 1`
requests have been made); in `download_batch` (daily_weather.py) such a
status is instead retried like a generic failure — a later successful
attempt makes the fetch proceed. -/
theorem c5_status_error_immediate :
    (∀ (responses : Nat → Resp) (k n s : Nat) (b : Body),
        k < n →
        (∀ i, i < k → isRetryable (responses i) = true) →
        responses k = .http s b →
        ¬(200 ≤ s ∧ s ≤ 299) → s ≠ 429 → s ≠ 500 →
        requestWithRetry responses n = (.httpStatusError s, k + 1)) ∧
    (∀ (responses : Nat → Resp) (s0 : Nat) (b0 : Body) (u : String),
        responses 0 = .http s0 b0 →
        ¬(200 ≤ s0 ∧ s0 ≤ 299) → s0 ≠ 429 → s0 ≠ 500 →
        responses 1 = .http 200 (.withDatos u) →
        download_batch_dw responses = .fetchedDatos u) := by
  constructor
  · intro responses k n s b hk hpre hresp h2 h429 h500
    unfold requestWithRetry
    apply retryAux_stops responses n k 0 n s b hk
    · intro i _ hi
      exact hpre i (by omega)
    · rw [Nat.zero_add]
      exact hresp
    · exact h2
    · exact h429
    · exact h500
  · intro responses s0 b0 u h0 h2 h429 h500 h1
    unfold download_batch_dw
    rw [show (5 : Nat) = 4 + 1 from rfl]
    rw [dwLoop_step_http responses 0 4 none s0 b0 h0]
    rw [if_neg (by omega), if_neg h2, if_neg (by omega)]
    simp only [Nat.zero_add]
    rw [show (4 : Nat) = 3 + 1 from rfl]
    rw [dwLoop_step_http responses 1 3 (some (s0, b0)) 200 (.withDatos u) h1]
    rw [if_neg (by omega), if_pos (by omega)]
    rfl

/-- Witness for C5: two rate-limited attempts, then a 404 — the fetch
fails at once with three requests issued in total. -/
theorem c5_status_error_immediate_witness :
    requestWithRetry
      (fun i => if i < 2 then .http 429 .noDatos else .http 404 .noDatos) 8
      = (.httpStatusError 404, 3) :=
  c5_status_error_immediate.1
    (fun i => if i < 2 then .http 429 .noDatos else .http 404 .noDatos)
    2 8 404 .noDatos (by omega) (by decide) (by decide) (by decide)
    (by decide) (by decide)

/-! ## C4: payload decoding attempts a single encoding -/

/-- C4 (counterexample): the second-stage payload decode does not try
multiple candidate encodings — the source performs exactly one
`decode("latin-1")` call, so the candidate list is the singleton
`["latin-1"]`, not a primary encoding followed by a fallback list. -/
theorem c4_no_fallback_encodings :
    attemptedEncodings = ["latin-1"] ∧ attemptedEncodings.length < 2 := by
  refine ⟨rfl, by decide⟩

/-- C4 (amended): the resolver decodes the second-stage payload with the
single fixed encoding latin-1, and that decode succeeds on every byte
string (every byte value is a valid latin-1 code point), so the decoding
stage itself never fails — there is no `DecodingError`; only a JSON
parse error of the decoded text can arise. -/
theorem c4_latin1_single_and_total (bs : List Nat)
    (h : bs.all (fun b => b < 256) = true) :
    decodeLatin1 bs = some bs ∧ attemptedEncodings.length = 1 := by
  constructor
  · unfold decodeLatin1
    rw [if_pos h]
  · rfl

/-- Witness for C4: a byte string with high bytes decodes fine. -/
theorem c4_latin1_single_and_total_witness :
    (([72, 225, 255] : List Nat).all (fun b => b < 256) = true) ∧
    (decodeLatin1 [72, 225, 255] = some [72, 225, 255] ∧
      attemptedEncodings.length = 1) :=
  ⟨by decide, c4_latin1_single_and_total [72, 225, 255] (by decide)⟩

/-! ## C8: coordinate conversion values -/

/-- C8: `convert_to_decimal` reads degrees, minutes and seconds from the
fixed character positions and computes
`degrees + minutes/60 + seconds/3600`, negated for a trailing `'S'` or
`'W'`: `"415300N"` gives `41 + 53/60 + 0/3600`, `"035500W"` gives
`-(3 + 55/60 + 0/3600)`, and a nonzero seconds field contributes its
`/3600` term (`"415307S"` gives `-(41 + 53/60 + 7/3600)`). -/
theorem c8_convert_to_decimal_values :
    convert_to_decimal (some ['4', '1', '5', '3', '0', '0', 'N'])
      = .val (41 + 53 / 60 + 0 / 3600) ∧
    convert_to_decimal (some ['0', '3', '5', '5', '0', '0', 'W'])
      = .val (-(3 + 55 / 60 + 0 / 3600)) ∧
    convert_to_decimal (some ['4', '1', '5', '3', '0', '7', 'S'])
      = .val (-(41 + 53 / 60 + 7 / 3600)) := by
  have e0 : '0'.toNat - 48 = 0 := rfl
  have e1 : '1'.toNat - 48 = 1 := rfl
  have e3 : '3'.toNat - 48 = 3 := rfl
  have e4 : '4'.toNat - 48 = 4 := rfl
  have e5 : '5'.toNat - 48 = 5 := rfl
  have e7 : '7'.toNat - 48 = 7 := rfl
  refine ⟨congrArg ConvResult.val (by norm_num [e0, e1, e3, e4, e5]),
    congrArg ConvResult.val (by norm_num [e0, e3, e5]),
    congrArg ConvResult.val (by norm_num [e0, e1, e3, e4, e5, e7])⟩

/-! ## C10: missing and short coordinates become missing values -/

/-- C10: `convert_to_decimal` returns the missing-value marker `None`,
instead of raising, on a `None` coordinate, on the empty string, and on
every string shorter than 7 characters, so such coordinates become
missing values in the compacted dataset. -/
theorem c10_short_coordinate_is_missing :
    convert_to_decimal none = .missing ∧
    convert_to_decimal (some []) = .missing ∧
    (∀ cs : List Char, cs.length < 7 →
      convert_to_decimal (some cs) = .missing) := by
  refine ⟨rfl, by decide, ?_⟩
  intro cs h
  simp only [convert_to_decimal]
  rw [if_pos h]

/-- Witness for C10: a three-character coordinate maps to `None`. -/
theorem c10_short_coordinate_is_missing_witness :
    convert_to_decimal (some ['4', '1', 'N']) = .missing :=
  c10_short_coordinate_is_missing.2.2 ['4', '1', 'N'] (by decide)
